import Mathlib

/-!
Shallow embedding of the dependency-resolution and module-format-rewriting
engine of the repository: build's traversal loop, findActualFilePath,
readForDependencies, updateImports, the module-type classifiers and the
output-path computation. Absolute posix paths are modelled as lists of
components; the filesystem is a finite association list from file paths to
their parsed (post-transform) trees, since the source transformer, the
parser and the code emitter are external collaborators. Host-runtime data
(the builtin module list, the resolution of external package specifiers
to a module format, and the random identifier drawn for interop shims)
enter as explicit parameters.
-/

namespace JustRun

/-- Split a character list on a separator character, modelling the behaviour
of a JS String.split on a one-character separator (an empty input gives one
empty group, separators at the edges give empty groups). -/
def splitCharsOn (c : Char) : List Char → List (List Char)
  | [] => [[]]
  | x :: xs =>
    if x = c then [] :: splitCharsOn c xs
    else
      match splitCharsOn c xs with
      | [] => [[x]]
      | g :: gs => (x :: g) :: gs

/-- Components of a specifier string split on the slash character. -/
def splitSlash (s : String) : List String :=
  (splitCharsOn '/' s.data).map (fun cs => String.mk cs)

/-- Suffix of a character list starting at its last dot, if any. -/
def lastDotSuffix : List Char → Option (List Char)
  | [] => none
  | c :: rest =>
    match lastDotSuffix rest with
    | some s => some s
    | none => if c = '.' then some (c :: rest) else none

/-- Extension of a single path component under the posix path.extname rules:
empty when there is no dot or the only dot is the leading character, and
empty for the special component made of two dots. -/
def extOfBase (base : List Char) : List Char :=
  if base = ['.', '.'] then []
  else
    match lastDotSuffix base with
    | none => []
    | some s => if s.length = base.length then [] else s

/-- Model of posix path.extname applied to a raw specifier string. -/
def extnameStr (s : String) : String :=
  String.mk (extOfBase ((splitCharsOn '/' s.data).getLastD []))

/-- An absolute posix path as its list of components (the root is the empty
list). -/
abbrev Path := List String

/-- Model of posix path.extname applied to an absolute path. -/
def extnameP (p : Path) : String :=
  String.mk (extOfBase (p.getLastD "").data)

/-- Whether the first character of a string is the given character. -/
def headIs (c : Char) (s : String) : Bool :=
  match s.data with
  | [] => false
  | x :: _ => x = c

/-- Character-wise model of String.prototype.startsWith. -/
def strStartsWith (s pre : String) : Bool :=
  pre.data.isPrefixOf s.data

/-- A specifier is internal when it starts with a dot or a slash. -/
def isRelOrAbs (s : String) : Bool :=
  headIs '.' s || headIs '/' s

/-- Embeds ensureMJS (source lines 506-514): append the static output
extension to an internal specifier whose current extension is not already
that one; leave every other specifier untouched. -/
def ensureMJS (dependencyPath : String) : String :=
  if isRelOrAbs dependencyPath then
    if extnameStr dependencyPath ≠ ".mjs" then dependencyPath ++ ".mjs" else dependencyPath
  else dependencyPath

/-- Embeds ensureCJS (source lines 515-523): the dynamic-format counterpart
of ensureMJS. -/
def ensureCJS (dependencyPath : String) : String :=
  if isRelOrAbs dependencyPath then
    if extnameStr dependencyPath ≠ ".cjs" then dependencyPath ++ ".cjs" else dependencyPath
  else dependencyPath

/-- One step of posix path normalization over components: empty and
current-directory segments are dropped, a parent segment pops, and any
other segment is appended. -/
def normStep (acc : Path) (seg : String) : Path :=
  if seg = "" ∨ seg = "." then acc
  else if seg = ".." then acc.dropLast
  else acc ++ [seg]

/-- Normalization of a component sequence into an absolute path. -/
def normalize (segs : List String) : Path :=
  segs.foldl normStep []

/-- Embeds path.resolve(actualFilePath, "..", dependency) from build line 68
(also the resolution a module loader performs on a relative specifier
against the file that contains it). -/
def resolveDep (actualFilePath : Path) (dependency : String) : Path :=
  if headIs '/' dependency then normalize (splitSlash dependency)
  else normalize (actualFilePath ++ [".."] ++ splitSlash dependency)

/-- Mechanism tag carried by a traversal frame or dependency edge; importM
and requireM embed the source strings "import" and "require". -/
inductive Mechanism where
  | entry
  | importM
  | requireM
deriving DecidableEq, Repr

/-- Shapes of the first argument of a require call or the source of a
dynamic import, at the fidelity the source inspects them: a string
literal, a template literal (only its first quasi is read), a String.raw
tagged template (only its first quasi is read), or anything else. -/
inductive Arg where
  | lit (value : String)
  | tpl (cooked : String)
  | strRaw (cooked : String)
  | nonLit
deriving DecidableEq, Repr

/-- Nodes of a parsed file at the fidelity inspected by readForDependencies
and updateImports. importDeclaration keeps the data the source reads off
its specifiers: defaultLocal is the local name of the first specifier
without an imported field (a default or namespace specifier), and named is
the list of (imported, local) name pairs of the remaining specifiers.
constDecl is the destructuring VariableDeclaration synthesized for the
static-to-dynamic interop shim. requireMainRequireCall stores the value of
its first argument when that argument is a literal. Other node kinds carry
only their child list, which the generic traversal descends into. -/
inductive Est where
  | importExpression (source : Arg)
  | importDeclaration (typeOnly : Bool) (defaultLocal : Option String)
      (named : List (String × String)) (source : Option String)
  | exportNamedDeclaration (source : Option String)
  | exportAllDeclaration (source : Option String)
  | tsExternalModuleReference (value : Option String)
  | requireCall (args : List Arg)
  | requireMainRequireCall (argValue : Option String)
  | constDecl (props : List (String × String)) (initName : String)
  | otherNode (children : List Est)
deriving Repr

mutual

/-- Embeds readForDependencies (source lines 246-321): collect the
specifier and mechanism of every import-like node, in traversal order.
Empty-string specifiers are skipped wherever the source tests the value
for truthiness. -/
def readForDependencies : Est → List (String × Mechanism)
  | .importExpression (.lit v) => if v ≠ "" then [(v, .importM)] else []
  | .importExpression _ => []
  | .importDeclaration typeOnly _ _ src =>
    if typeOnly then []
    else
      match src with
      | some v => if v ≠ "" then [(v, .importM)] else []
      | none => []
  | .exportNamedDeclaration src =>
    match src with
    | some v => if v ≠ "" then [(v, .importM)] else []
    | none => []
  | .exportAllDeclaration src =>
    match src with
    | some v => if v ≠ "" then [(v, .importM)] else []
    | none => []
  | .tsExternalModuleReference val =>
    match val with
    | some v => if v ≠ "" then [(v, .importM)] else []
    | none => []
  | .requireCall args =>
    match args with
    | [] => []
    | a :: _ =>
      match a with
      | .lit v => if v ≠ "" then [(v, .requireM)] else []
      | .tpl c => if c ≠ "" then [(c, .requireM)] else []
      | .strRaw c => if c ≠ "" then [(c, .requireM)] else []
      | .nonLit => []
  | .requireMainRequireCall val =>
    match val with
    | some v => [(v, .requireM)]
    | none => []
  | .constDecl _ _ => []
  | .otherNode cs => readForDependenciesList cs

/-- Dependency collection over a child list. -/
def readForDependenciesList : List Est → List (String × Mechanism)
  | [] => []
  | e :: es => readForDependencies e ++ readForDependenciesList es

end

/-- Embeds isNodeBuiltin (source lines 543-548); the builtin module list
comes from the host runtime, so it is a parameter. -/
def isNodeBuiltin (builtins : List String) (dependency : String) : Bool :=
  if strStartsWith dependency "node:" then true
  else if dependency = "test" then false
  else builtins.contains dependency

/-- Rewrite of a dynamic-import source (the ImportExpression case of
updateImports, source lines 330-361): every recognized form goes through
ensureMJS; a literal with an empty (falsy) value is left alone. -/
def rewriteImportArg : Arg → Arg
  | .lit v => if v ≠ "" then .lit (ensureMJS v) else .lit v
  | .tpl c => .tpl (ensureMJS c)
  | .strRaw c => .strRaw (ensureMJS c)
  | .nonLit => .nonLit

/-- Rewrite of the argument list of a require call (the CallExpression case
of updateImports, source lines 451-493). The source sends a string-literal
first argument and a String.raw first argument through ensureMJS, and only
a template-literal first argument through ensureCJS. -/
def rewriteRequireArgs : List Arg → List Arg
  | [] => []
  | a :: rest =>
    (match a with
     | .lit v => .lit (ensureMJS v)
     | .tpl c => .tpl (ensureCJS c)
     | .strRaw c => .strRaw (ensureMJS c)
     | .nonLit => .nonLit) :: rest

mutual

/-- Embeds the splice-free cases of updateImports on a node anywhere in the
tree: dynamic-import sources, re-export sources and require arguments are
canonicalized in place; import declarations only occur at the top level
and are handled by updateStmt, so they pass through here unchanged. -/
def updateNested : Est → Est
  | .importExpression src => .importExpression (rewriteImportArg src)
  | .importDeclaration t d n s => .importDeclaration t d n s
  | .exportNamedDeclaration src =>
    (match src with
     | some v => if v ≠ "" then .exportNamedDeclaration (some (ensureMJS v))
                 else .exportNamedDeclaration (some v)
     | none => .exportNamedDeclaration none)
  | .exportAllDeclaration src =>
    (match src with
     | some v => if v ≠ "" then .exportAllDeclaration (some (ensureMJS v))
                 else .exportAllDeclaration (some v)
     | none => .exportAllDeclaration none)
  | .tsExternalModuleReference v => .tsExternalModuleReference v
  | .requireCall args => .requireCall (rewriteRequireArgs args)
  | .requireMainRequireCall v => .requireMainRequireCall v
  | .constDecl ps i => .constDecl ps i
  | .otherNode cs => .otherNode (updateNestedList cs)

/-- Splice-free rewriting over a child list. -/
def updateNestedList : List Est → List Est
  | [] => []
  | e :: es => updateNested e :: updateNestedList es

end

/-- Embeds the ImportDeclaration case of updateImports (source lines
363-438) on one top-level statement, returning the statements that take its
place. The source specifier is canonicalized through ensureMJS; when the
declaration carries named bindings from an external dependency that
classifies as dynamic-format, its specifiers are replaced by a single
default specifier bound to the supplied default local name, or to a
generated identifier otherwise, and the destructuring shim is inserted
right after it. classify models the composition of import.meta.resolve,
fileURLToPath and determineModuleTypeFromPath on the installed dependency
tree; uuid models the randomUUID().slice(-12) draw. -/
def updateStmt (classify : String → String) (builtins : List String) (uuid : String) :
    Est → List Est
  | .importDeclaration typeOnly dflt named src =>
    if typeOnly then [.importDeclaration typeOnly dflt named src]
    else
      match src with
      | some v =>
        if v ≠ "" then
          let value := ensureMJS v
          let isExternalDependency : Bool :=
            !(headIs '.' value || headIs '/' value || isNodeBuiltin builtins value)
          if named ≠ [] ∧ isExternalDependency ∧ classify value = ".cjs" then
            let uniqueID := dflt.getD ("xnr_" ++ uuid)
            [.importDeclaration false (some uniqueID) [] (some value),
             .constDecl named uniqueID]
          else [.importDeclaration false dflt named (some value)]
        else [.importDeclaration typeOnly dflt named (some v)]
      | none => [.importDeclaration typeOnly dflt named none]
  | s => [updateNested s]

/-- Embeds updateImports over the top-level statement list; uuids supplies
the random identifier draw for the statement at each index. -/
def updateBody (classify : String → String) (builtins : List String) (uuids : Nat → String) :
    List Est → Nat → List Est
  | [], _ => []
  | s :: rest, i =>
    updateStmt classify builtins (uuids i) s ++ updateBody classify builtins uuids rest (i + 1)

/-- Embeds updateImports on a whole file body. -/
def updateImports (classify : String → String) (builtins : List String) (uuids : Nat → String)
    (body : List Est) : List Est :=
  updateBody classify builtins uuids body 0

/-- The filesystem: finitely many files, each an absolute path paired with
its parsed tree. Directories exist implicitly as proper ancestors of
files. -/
abbrev FileSys := List (Path × Est)

/-- Whether a path names a file. -/
def isFileB (fs : FileSys) (p : Path) : Bool :=
  fs.any (fun f => f.1 == p)

/-- Whether a path names a directory (a proper ancestor of some file). -/
def isDirB (fs : FileSys) (p : Path) : Bool :=
  fs.any (fun f => p.isPrefixOf f.1 && !(p == f.1))

/-- Deduplication keeping the first occurrence, fuelled by the input
length so the recursion is structural (filtering never lengthens the
list, so the fuel is always sufficient). -/
def dedupKeepFirstGo : Nat → List String → List String
  | 0, _ => []
  | _ + 1, [] => []
  | n + 1, x :: xs => x :: dedupKeepFirstGo n (xs.filter (fun y => y ≠ x))

/-- Deduplication keeping the first occurrence, modelling insertion into a
JS Set while iterating a directory listing. -/
def dedupKeepFirst (l : List String) : List String :=
  dedupKeepFirstGo l.length l

/-- Names of the entries of a directory (model of fs.readdir): the next
path component of every file lying strictly under it, first occurrence
order, without duplicates. -/
def dirEntryNames (fs : FileSys) (d : Path) : List String :=
  dedupKeepFirst (fs.filterMap (fun f =>
    if d.isPrefixOf f.1 && !(d == f.1) then f.1.get? d.length else none))

/-- Failure outcomes of the embedded build. referenceErrorEntryMethod
records what the unresolvable-specifier branch of findActualFilePath
(source lines 236-241) actually does: its message template interpolates the
variable entryMethod, but no such variable is in scope in that function, so
evaluating the template raises a ReferenceError instead of constructing the
intended Error text naming the mechanism and the path. readError models
fs.readFile failing because a resolution fallback produced a path that is
not a file. -/
inductive BuildErr where
  | referenceErrorEntryMethod
  | readError (p : Path)
deriving DecidableEq, Repr

/-- Embeds findActualFilePath (source lines 167-242): exact file match
first, then the hint-directed probes, then the fixed extension-priority
probes over sub-index and same-stem candidates, then the untyped index
file, then the single-candidate fallbacks exactly as the source
concatenates them (the two final fallbacks append the full entry name to
the probed path, reproducing the source's string concatenation). -/
def findActualFilePath (fs : FileSys) (filePath : Path) (likelyExtension : String) :
    Except BuildErr Path :=
  if isFileB fs filePath then .ok filePath
  else
    let dirname := filePath.dropLast
    let filename := filePath.getLastD ""
    let entries := dirEntryNames fs dirname
    let anyExt := entries.filter (fun n =>
      (n == filename || strStartsWith n (filename ++ ".")) && isFileB fs (dirname ++ [n]))
    let hasSub := entries.any (fun n => n == filename && isDirB fs (dirname ++ [n]))
    let subEntries := if hasSub then dirEntryNames fs filePath else []
    let subAnyExt := subEntries.filter (fun n =>
      (n == "index" || strStartsWith n "index.") && isFileB fs (filePath ++ [n]))
    if likelyExtension ≠ "" ∧ anyExt.contains (filename ++ likelyExtension) then
      .ok (dirname ++ [filename ++ likelyExtension])
    else if likelyExtension ≠ "" ∧ subAnyExt.contains ("index" ++ likelyExtension) then
      .ok (filePath ++ ["index" ++ likelyExtension])
    else
      let extensionOrder := [likelyExtension, ".tsx", ".ts", ".mjs", ".cjs", ".jsx", ".js"]
      match extensionOrder.find? (fun e => subAnyExt.contains ("index" ++ e)) with
      | some e => .ok (filePath ++ ["index" ++ e])
      | none =>
        match extensionOrder.find? (fun e => anyExt.contains (filename ++ e)) with
        | some e => .ok (dirname ++ [filename ++ e])
        | none =>
          if subAnyExt.contains "index" then .ok (filePath ++ ["index"])
          else if subAnyExt.length = 1 then .ok (filePath ++ ["index" ++ subAnyExt.headD ""])
          else if anyExt.length = 1 then .ok (dirname ++ [filename ++ anyExt.headD ""])
          else .error .referenceErrorEntryMethod

/-- A traversal frame as pushed on the explicit work stack (build lines
25-31 and 70-74). -/
structure Frame where
  filePath : Path
  likelyExtension : String
  entryMethod : Mechanism
deriving DecidableEq, Repr

/-- One record of internalSourceFiles (build lines 85-89). -/
structure SourceFileRec where
  rawInputFile : Path
  inputFile : Path
  outputFormat : String
deriving DecidableEq, Repr

/-- Tree of a file, looked up by its path (models reading and parsing a
discovered file; build caches the parse keyed by the raw path, which the
embedding does not need to replicate because parsing is pure here). -/
def lookupAst (fs : FileSys) (p : Path) : Option Est :=
  (fs.find? (fun f => f.1 == p)).map (fun f => f.2)

/-- Dependencies of a parsed file after dropping host builtins (build lines
62-64). -/
def fileDependencies (builtins : List String) (ast : Est) : List (String × Mechanism) :=
  (readForDependencies ast).filter (fun d => !isNodeBuiltin builtins d.1)

/-- Raw target paths pushed for the internal dependencies of a file (build
lines 66-76), with their mechanisms. -/
def depTargets (builtins : List String) (actualFilePath : Path) (ast : Est) :
    List (Path × Mechanism) :=
  ((fileDependencies builtins ast).filter (fun d => headIs '.' d.1 || headIs '/' d.1)).map
    (fun d => (resolveDep actualFilePath d.1, d.2))

/-- Embeds the traversal loop of build (source lines 34-91), fuel-indexed
so the definition is total; none means the fuel ran out. The stack is kept
head-first, so pushing a frame batch prepends its reverse, matching the
push and pop order of the source's array stack. Note that build line 40
calls findActualFilePath without its likelyExtension argument, so every
resolution runs with the empty hint even though the frames carry one. -/
def buildLoop (fs : FileSys) (builtins : List String) :
    Nat → List Frame → List Path → List SourceFileRec →
    Option (Except BuildErr (List SourceFileRec))
  | 0, _, _, _ => none
  | _ + 1, [], _, acc => some (.ok acc.reverse)
  | fuel + 1, fr :: rest, explored, acc =>
    if explored.contains fr.filePath then buildLoop fs builtins fuel rest explored acc
    else
      match findActualFilePath fs fr.filePath "" with
      | .error e => some (.error e)
      | .ok actualFilePath =>
        match lookupAst fs actualFilePath with
        | none => some (.error (.readError actualFilePath))
        | some ast =>
          let dependencies := fileDependencies builtins ast
          let newFrames := (depTargets builtins actualFilePath ast).map (fun t =>
            (⟨t.1, if extnameP t.1 ≠ "" then extnameP t.1 else fr.likelyExtension, t.2⟩ : Frame))
          let isESM := dependencies.any (fun d => d.2 == Mechanism.importM)
          let outputFormat :=
            if fr.entryMethod = Mechanism.requireM ∨
               (fr.entryMethod = Mechanism.entry ∧ !isESM) then ".cjs" else ".mjs"
          buildLoop fs builtins fuel (newFrames.reverse ++ rest) (fr.filePath :: explored)
            (⟨fr.filePath, actualFilePath, outputFormat⟩ :: acc)

/-- Embeds the traversal part of build: one entry frame whose hint is the
entry file's extension (build lines 24-31), run to completion. -/
def buildGraph (fs : FileSys) (builtins : List String) (entryAbs : Path) (fuel : Nat) :
    Option (Except BuildErr (List SourceFileRec)) :=
  buildLoop fs builtins fuel [⟨entryAbs, extnameP entryAbs, .entry⟩] [] []

/-- Embeds the common-root loop of build (source lines 93-102): walk upward
from the entry file path until every discovered file is a strict
descendant of the candidate, reaching the filesystem root in the worst
case. Fuelled by the entry path length, which the walk can never exceed. -/
def commonRootGo (inputFiles : List Path) : Nat → Path → Path
  | 0, root => root
  | n + 1, root =>
    if root = [] then root
    else
      let r := root.dropLast
      if inputFiles.all (fun f => r.isPrefixOf f && !(r == f)) then r
      else commonRootGo inputFiles n r

/-- Common root of the discovered files, walking up from the entry file. -/
def commonRoot (inputFiles : List Path) (firstFilePath : Path) : Path :=
  commonRootGo inputFiles firstFilePath.length firstFilePath

/-- Replace the extension of the final path component when it differs from
the output format (the slice-and-append of build lines 121-124). -/
def swapExtLast (p : Path) (outputFormat : String) : Path :=
  let ext := extnameP p
  if ext ≠ outputFormat then
    p.dropLast ++
      [String.mk ((p.getLastD "").data.take ((p.getLastD "").data.length - ext.data.length))
        ++ outputFormat]
  else p

/-- Embeds the per-file output path computation of build (source lines
120-125): the string outputDirectory + "/" + inputFile.slice(root length)
becomes the component concatenation, the extension is swapped to the
chosen format, and the result is passed through path.join with the output
directory a second time, which the source does verbatim; path.join is
concatenation followed by normalization. -/
def outputFilePathFor (outputDirectory : Path) (commonRootPath : Path) (inputFile : Path)
    (outputFormat : String) : Path :=
  let outputPath := outputDirectory ++ inputFile.drop commonRootPath.length
  let outputPath2 := swapExtLast outputPath outputFormat
  normalize (outputDirectory ++ outputPath2)

/-- The output plan of one build: each discovered file paired with its
emitted location, in discovery order. -/
def buildPlan (fs : FileSys) (builtins : List String) (outputDirectory : Path)
    (entryAbs : Path) (fuel : Nat) : Option (Except BuildErr (List (Path × Path))) :=
  (buildGraph fs builtins entryAbs fuel).map (fun r => r.map (fun files =>
    let commonRootPath := commonRoot (files.map (fun f => f.inputFile)) entryAbs
    files.map (fun f =>
      (f.inputFile, outputFilePathFor outputDirectory commonRootPath f.inputFile f.outputFormat))))

/-- A parse tree at the fidelity the module-type classifiers need: every
node is its ESTree type name plus its children (the classifiers only ever
test node type names). -/
inductive Tree where
  | node (kind : String) (children : List Tree)
deriving Repr

/-- The module-only node type names of utils.ts (MODULE_ONLY_NODE_TYPE_SET,
utils lines 35-45). -/
def MODULE_ONLY_NODE_TYPE_SET : List String :=
  ["ExportAllDeclaration", "ExportDefaultDeclaration", "ExportNamedDeclaration",
   "ExportSpecifier", "ImportAttribute", "ImportDeclaration", "ImportDefaultSpecifier",
   "ImportNamespaceSpecifier", "ImportSpecifier"]

mutual

/-- Whether some node of the tree has a type in the module-only set (the
findNodeAt search of determineModuleType, utils lines 55-57). -/
def treeHasModuleNode : Tree → Bool
  | .node kind children =>
    MODULE_ONLY_NODE_TYPE_SET.contains kind || treeListHasModuleNode children

/-- Module-only search over a child list. -/
def treeListHasModuleNode : List Tree → Bool
  | [] => false
  | t :: ts => treeHasModuleNode t || treeListHasModuleNode ts

end

/-- Character-wise model of String.prototype.toLowerCase. -/
def strToLower (s : String) : String :=
  String.mk (s.data.map Char.toLower)

/-- JS String.prototype.slice(-4): the last four characters, or the whole
string when it is shorter. -/
def strSliceNeg4 (s : String) : String :=
  String.mk (s.data.drop (s.data.length - 4))

/-- Embeds determineModuleType of utils.ts (lines 47-61): extension fast
path for the four unambiguous extensions, otherwise parse the content and
search for a module-only node. The content is passed as its parse tree,
since parsing is an external collaborator. -/
def determineModuleType (filePath : String) (content : Tree) : Mechanism :=
  let lowercaseExtension := strToLower (strSliceNeg4 filePath)
  if lowercaseExtension = ".mjs" ∨ lowercaseExtension = ".mts" then .importM
  else if lowercaseExtension = ".cjs" ∨ lowercaseExtension = ".cts" then .requireM
  else if treeHasModuleNode content then .importM else .requireM

/-- The node type names that set hasFoundExport in
determineModuleTypeFromString (source lines 604-621); an ImportExpression
deliberately does not appear, since a dynamic import can occur in a
dynamic-format file. -/
def exportNodeTypes : List String :=
  ["ExportAllDeclaration", "ExportDefaultDeclaration", "ExportNamedDeclaration",
   "ExportSpecifier", "ImportAttribute", "ImportDeclaration", "ImportDefaultSpecifier",
   "ImportNamespaceSpecifier", "ImportSpecifier"]

mutual

/-- The hasFoundExport scan of determineModuleTypeFromString. -/
def scanHasExport : Tree → Bool
  | .node kind children => exportNodeTypes.contains kind || scanHasExportList children

/-- The hasFoundExport scan over a child list. -/
def scanHasExportList : List Tree → Bool
  | [] => false
  | t :: ts => scanHasExport t || scanHasExportList ts

end

/-- Embeds determineModuleTypeFromString (source lines 577-624): the file
content is passed as its parse tree. -/
def determineModuleTypeFromString (content : Tree) : String :=
  if scanHasExport content then ".mjs" else ".cjs"

/-- Embeds determineModuleTypeFromPath (source lines 626-635): the
lowercased last four characters give a fast path only for ".cjs" and
".mjs"; every other name, including ".mts" and ".cts" files, falls through
to content inspection. -/
def determineModuleTypeFromPath (dependencyEntryFilePath : String) (content : Tree) : String :=
  let lowercaseExtension := strSliceNeg4 (strToLower dependencyEntryFilePath)
  if lowercaseExtension = ".cjs" ∨ lowercaseExtension = ".mjs" then lowercaseExtension
  else determineModuleTypeFromString content

/-- Decidable equality for build results. -/
instance {e a : Type} [DecidableEq e] [DecidableEq a] : DecidableEq (Except e a) := fun x y =>
  match x, y with
  | .ok u, .ok v =>
    if h : u = v then isTrue (by rw [h]) else isFalse (fun hh => h (Except.ok.inj hh))
  | .error u, .error v =>
    if h : u = v then isTrue (by rw [h]) else isFalse (fun hh => h (Except.error.inj hh))
  | .ok _, .error _ => isFalse (fun hh => Except.noConfusion hh)
  | .error _, .ok _ => isFalse (fun hh => Except.noConfusion hh)

/-- A well-formed path component: nonempty and not one of the two dot
segments that path normalization consumes. -/
def Seg (x : String) : Prop := x ≠ "" ∧ x ≠ "." ∧ x ≠ ".."

/-- A path all of whose components are well-formed (every path produced by
posix resolution is of this shape). -/
def CleanP (p : Path) : Prop := ∀ x ∈ p, Seg x

instance (x : String) : Decidable (Seg x) := by
  unfold Seg
  infer_instance

instance (p : Path) : Decidable (CleanP p) := by
  unfold CleanP
  exact List.decidableBAll _ p

/-- Extension swap on a single component, the form the slice-and-append of
build lines 121-124 takes on the final component of the output path. -/
def swapComp (x fmt : String) : String :=
  if extnameP [x] ≠ fmt then
    String.mk (x.data.take (x.data.length - (extnameP [x]).data.length)) ++ fmt
  else x

/-- Whether a top-level statement would receive an interop shim with a
generated (randomUUID-derived) identifier: a non-type-only import of named
bindings without a default local name, from an external dependency that
classifies as dynamic-format. -/
def needsGeneratedShim (classify : String → String) (builtins : List String) : Est → Bool
  | .importDeclaration false none named (some v) =>
    !(v == "") && !(named == []) &&
    !(headIs '.' (ensureMJS v) || headIs '/' (ensureMJS v) ||
      isNodeBuiltin builtins (ensureMJS v)) &&
    (classify (ensureMJS v) == ".cjs")
  | _ => false

/-- Identifiers bound by the interop shims of a statement list (projection
used to compare two rewrite outputs). -/
def shimInitNames (body : List Est) : List String :=
  body.filterMap (fun e =>
    match e with
    | .constDecl _ i => some i
    | _ => none)

/-- All raw paths the traversal can ever push: the entry path plus the
resolved target of every internal dependency of every file on disk. -/
def rawPathBound (fs : FileSys) (builtins : List String) (entryAbs : Path) : Finset Path :=
  insert entryAbs (fs.flatMap (fun f => (depTargets builtins f.1 f.2).map Prod.fst)).toFinset

/-- One more than the largest frame batch any single file can push. -/
def framesBound (fs : FileSys) (builtins : List String) : Nat :=
  1 + (fs.map (fun f => (depTargets builtins f.1 f.2).length)).foldr max 0

/-- Termination measure of the traversal loop: unexplored reachable raw
paths weighted by the largest push batch, plus the stack height. -/
def loopMeasure (fs : FileSys) (builtins : List String) (entryAbs : Path)
    (stack : List Frame) (explored : List Path) : Nat :=
  ((rawPathBound fs builtins entryAbs).filter (fun p => p ∉ explored)).card *
    framesBound fs builtins + stack.length

/-- Fixture: an entry file importing a missing sibling. -/
def fsC3 : FileSys :=
  [ (["d", "e.ts"], .otherNode [.importDeclaration false none [] (some "./missing")]) ]

/-- Fixture: an entry file reaching the same sibling under two raw
specifiers, with and without its extension. -/
def fsC4 : FileSys :=
  [ (["d", "e.ts"], .otherNode [.importDeclaration false none [] (some "./a"),
                                .importDeclaration false none [] (some "./a.ts")]),
    (["d", "a.ts"], .otherNode []) ]

/-- Fixture: a plain-dialect entry file importing a bare sibling specifier
that two siblings of different dialects could satisfy. -/
def fsC7 : FileSys :=
  [ (["d", "e.js"], .otherNode [.importDeclaration false none [] (some "./a")]),
    (["d", "a.ts"], .otherNode []),
    (["d", "a.js"], .otherNode []) ]

/-- Fixture: an entry file importing a sibling by an extension-bearing
specifier. -/
def fsC1 : FileSys :=
  [ (["src", "e.ts"], .otherNode [.importDeclaration false none [] (some "./a.ts")]),
    (["src", "a.ts"], .otherNode []) ]

/-- Fixture: a two-file project used to exhibit the output plan. -/
def fsC6 : FileSys :=
  [ (["src", "e.ts"], .otherNode [.importDeclaration false none [] (some "./a")]),
    (["src", "a.ts"], .otherNode []) ]

/-- Fixture: a statement importing named bindings from an external
dependency, with no default local name. -/
def bodyC5 : List Est := [.importDeclaration false none [("a", "a")] (some "dep")]

/-- Fixture: the same import but carrying a default local name. -/
def bodyC5w : List Est := [.importDeclaration false (some "d") [("a", "a")] (some "dep")]

/-- C2: the claim states that every require call with a string-literal,
template-literal or String.raw first argument naming an internal specifier
is canonicalized to the dynamic (".cjs") output extension. The code sends
the string-literal and String.raw forms through ensureMJS, so a
require("./x") is rewritten to "./x.mjs" rather than the "./x.cjs" the
claim (and the neighbouring template-literal branch, which does use
ensureCJS) requires: this theorem evaluates the rewriter on all three
forms at the failing input. -/
theorem claim_C2_code_behavior :
    updateNested (.requireCall [.lit "./x"]) = .requireCall [.lit "./x.mjs"] ∧
    updateNested (.requireCall [.tpl "./x"]) = .requireCall [.tpl "./x.cjs"] ∧
    updateNested (.requireCall [.strRaw "./x"]) = .requireCall [.strRaw "./x.mjs"] ∧
    ensureCJS "./x" = "./x.cjs" ∧ ("./x.mjs" : String) ≠ "./x.cjs" :=
  ⟨rfl, rfl, rfl, rfl, by decide⟩

/-- C3: the claim states that an unresolvable specifier fails the build
with a ResolutionError naming the mechanism and the path. The build does
fail rather than skip the edge, but the failure branch of
findActualFilePath interpolates the out-of-scope variable entryMethod, so
what escapes is a ReferenceError that names neither the mechanism nor the
path; this theorem evaluates the resolver and the whole build at the
failing input. -/
theorem claim_C3_code_behavior :
    findActualFilePath fsC3 ["d", "missing"] "" = .error .referenceErrorEntryMethod ∧
    buildGraph fsC3 [] ["d", "e.ts"] 10 = some (.error .referenceErrorEntryMethod) := by
  decide

/-- C7: the claim states that resolution uses the frame's likely-extension
hint, so "./a" with hint ".js" and siblings a.ts and a.js must resolve to
a.js. The resolver does implement the hint preference (second conjunct),
but build line 40 calls it without the hint argument, so the build resolves
the specifier with the empty hint and the fixed extension order picks a.ts
(first conjunct): the hint carried by the frames is never used. -/
theorem claim_C7_code_behavior :
    buildGraph fsC7 [] ["d", "e.js"] 10 =
      some (.ok [⟨["d", "e.js"], ["d", "e.js"], ".mjs"⟩,
                 ⟨["d", "a"], ["d", "a.ts"], ".mjs"⟩]) ∧
    findActualFilePath fsC7 ["d", "a"] ".js" = .ok ["d", "a.js"] ∧
    (["d", "a.ts"] : Path) ≠ ["d", "a.js"] := by
  decide

/-- C4 counterexample: the claim states every resolved path appears exactly
once in the graph even when one file is reached through two raw
specifiers. Dedup is by raw pre-resolution path, so "./a" and "./a.ts"
both survive and the resolved path d/a.ts appears twice in the graph the
build produces. -/
theorem claim_C4_counterexample :
    (buildGraph fsC4 [] ["d", "e.ts"] 10).map (fun r => r.map (fun l =>
        l.map (fun f => f.inputFile))) =
      some (.ok [["d", "e.ts"], ["d", "a.ts"], ["d", "a.ts"]]) ∧
    ¬ ([["d", "e.ts"], ["d", "a.ts"], ["d", "a.ts"]] : List Path).Nodup := by
  decide

/-- C9 counterexample: the claim states every filename ending in .mts
classifies as static-format without content inspection. The classifier of
the build (determineModuleTypeFromPath) fast-paths only ".cjs" and ".mjs",
so an .mts file whose tree shows no module-only node classifies as the
dynamic format. -/
theorem claim_C9_counterexample :
    determineModuleTypeFromPath "a.mts" (.node "Program" []) = ".cjs" ∧
    (".cjs" : String) ≠ ".mjs" := by
  decide

/-- C6 counterexample: the claim states each discovered file maps to
outputDirectory joined with its root-relative path. The computed string
already carries the output directory, and the source then joins it with
the output directory again, so the plan places files under out/out/...
rather than the claimed out/... location. -/
theorem claim_C6_counterexample :
    buildPlan fsC6 [] ["out"] ["src", "e.ts"] 10 =
      some (.ok [(["src", "e.ts"], ["out", "out", "e.mjs"]),
                 (["src", "a.ts"], ["out", "out", "a.mjs"])]) ∧
    (["out", "out", "e.mjs"] : Path) ≠ ["out"] ++ ["e.mjs"] := by
  decide

/-- C1 counterexample: the claim states the rewritten specifier of every
internal edge names exactly the emitted output file of its target. For the
extension-bearing specifier "./a.ts", rewriting appends ".mjs" giving
"./a.ts.mjs", which resolves from the emitted importer to out/out/a.ts.mjs,
while the target is emitted at out/out/a.mjs (the plan shows the only two
emitted files), so the rewritten edge names no emitted file. -/
theorem claim_C1_counterexample :
    buildPlan fsC1 [] ["out"] ["src", "e.ts"] 10 =
      some (.ok [(["src", "e.ts"], ["out", "out", "e.mjs"]),
                 (["src", "a.ts"], ["out", "out", "a.mjs"])]) ∧
    ensureMJS "./a.ts" = "./a.ts.mjs" ∧
    resolveDep ["out", "out", "e.mjs"] (ensureMJS "./a.ts") = ["out", "out", "a.ts.mjs"] ∧
    (["out", "out", "a.ts.mjs"] : Path) ≠ ["out", "out", "a.mjs"] := by
  decide

/-- C5 counterexample: the claim states two runs of build on unchanged
input produce byte-identical output even when a named-import interop shim
with a synthesized local binding is inserted. The synthesized binding
embeds the run's randomUUID draw, so two runs whose draws differ emit
different bytes: the rewrite of the same file under two different draws
differs. -/
theorem claim_C5_counterexample :
    updateImports (fun _ => ".cjs") [] (fun _ => "aaaaaaaaaaaa") bodyC5 ≠
      updateImports (fun _ => ".cjs") [] (fun _ => "bbbbbbbbbbbb") bodyC5 :=
  fun h => absurd (congrArg shimInitNames h) (by decide)

theorem strAppend_data (s t : String) : (s ++ t).data = s.data ++ t.data := rfl

theorem ensureMJS_ne_empty (v : String) (h : v ≠ "") : ensureMJS v ≠ "" := by
  unfold ensureMJS
  split_ifs with h1 h2
  · intro hc
    have hd := congrArg String.data hc
    rw [strAppend_data] at hd
    rcases List.append_eq_nil.mp hd with ⟨-, hm⟩
    exact absurd hm (by decide)
  · exact h
  · exact h

theorem ensureMJS_external (v : String) (h : (headIs '.' v || headIs '/' v) = false) :
    ensureMJS v = v := by
  unfold ensureMJS isRelOrAbs
  rw [h]
  simp

/-- C9 amended: the utils classifier behaves exactly as the claim states
(fast path for all four unambiguous extensions, content inspection
otherwise, with module-only nodes as the only evidence), while the build's
own classifier fast-paths only ".cjs" and ".mjs" and content-inspects every
other name, including .mts and .cts files; node kinds outside the
module-only set, in particular ImportExpression, never count as
evidence. -/
theorem claim_C9_amended :
    (∀ p t, strToLower (strSliceNeg4 p) = ".mjs" ∨ strToLower (strSliceNeg4 p) = ".mts" →
        determineModuleType p t = .importM) ∧
    (∀ p t, strToLower (strSliceNeg4 p) = ".cjs" ∨ strToLower (strSliceNeg4 p) = ".cts" →
        determineModuleType p t = .requireM) ∧
    (∀ p t, ¬(strToLower (strSliceNeg4 p) = ".mjs" ∨ strToLower (strSliceNeg4 p) = ".mts") →
        ¬(strToLower (strSliceNeg4 p) = ".cjs" ∨ strToLower (strSliceNeg4 p) = ".cts") →
        (determineModuleType p t = .importM ↔ treeHasModuleNode t = true)) ∧
    (∀ k cs, k ∉ MODULE_ONLY_NODE_TYPE_SET →
        treeHasModuleNode (.node k cs) = treeListHasModuleNode cs) ∧
    (∀ t, determineModuleTypeFromString t = ".mjs" ↔ scanHasExport t = true) ∧
    (∀ p t, ¬(strSliceNeg4 (strToLower p) = ".cjs" ∨ strSliceNeg4 (strToLower p) = ".mjs") →
        determineModuleTypeFromPath p t = determineModuleTypeFromString t) := by
  refine ⟨?_, ?_, ?_, ?_, ?_, ?_⟩
  · intro p t h
    simp only [determineModuleType]
    rw [if_pos h]
  · intro p t h
    simp only [determineModuleType]
    rw [if_neg ?hne, if_pos h]
    case hne =>
      rcases h with h | h <;> rw [h] <;> decide
  · intro p t h1 h2
    simp only [determineModuleType]
    rw [if_neg h1, if_neg h2]
    by_cases ht : treeHasModuleNode t <;> simp [ht]
  · intro k cs hk
    have hc : MODULE_ONLY_NODE_TYPE_SET.contains k = false := by
      by_contra hcon
      rw [Bool.not_eq_false] at hcon
      exact hk (by simpa using hcon)
    simp only [treeHasModuleNode]
    rw [hc, Bool.false_or]
  · intro t
    simp only [determineModuleTypeFromString]
    by_cases ht : scanHasExport t <;> simp [ht]
  · intro p t h
    simp only [determineModuleTypeFromPath]
    rw [if_neg h]

/-- C9 amended witness: the amended statement instantiated on concrete
names and trees. -/
theorem claim_C9_amended_witness :
    determineModuleType "b.MTS" (.node "Program" []) = .importM ∧
    determineModuleType "b.cts" (.node "Program" []) = .requireM ∧
    (determineModuleType "b.ts" (.node "Program" [.node "ImportDeclaration" []]) = .importM ↔
      treeHasModuleNode (.node "Program" [.node "ImportDeclaration" []]) = true) ∧
    treeHasModuleNode (.node "ImportExpression" []) = treeListHasModuleNode [] ∧
    (determineModuleTypeFromString (.node "Program" []) = ".mjs" ↔
      scanHasExport (.node "Program" []) = true) ∧
    determineModuleTypeFromPath "b.mts" (.node "Program" []) =
      determineModuleTypeFromString (.node "Program" []) := by
  refine ⟨?_, ?_, ?_, ?_, ?_, ?_⟩
  · exact claim_C9_amended.1 "b.MTS" _ (by decide)
  · exact claim_C9_amended.2.1 "b.cts" _ (by decide)
  · exact claim_C9_amended.2.2.1 "b.ts" _ (by decide) (by decide)
  · exact claim_C9_amended.2.2.2.1 "ImportExpression" [] (by decide)
  · exact claim_C9_amended.2.2.2.2.1 _
  · exact claim_C9_amended.2.2.2.2.2 "b.mts" _ (by decide)

theorem updateStmt_uuid_irrel (classify : String → String) (builtins : List String)
    (u1 u2 : String) (s : Est) (h : needsGeneratedShim classify builtins s = false) :
    updateStmt classify builtins u1 s = updateStmt classify builtins u2 s := by
  cases s with
  | importDeclaration t d n src =>
    cases t with
    | true => rfl
    | false =>
      cases src with
      | none => rfl
      | some v =>
        cases d with
        | some x => rfl
        | none =>
          by_cases hv : v = ""
          · simp [updateStmt, hv]
          · by_cases hn : n = []
            · simp [updateStmt, hv, hn]
            · by_cases hcls : classify (ensureMJS v) = ".cjs"
              · by_cases hex : (headIs '.' (ensureMJS v) || headIs '/' (ensureMJS v) ||
                    isNodeBuiltin builtins (ensureMJS v)) = true
                · simp [updateStmt, hv, hn, hcls, hex]
                · exfalso
                  rw [Bool.not_eq_true] at hex
                  have h' : needsGeneratedShim classify builtins
                      (.importDeclaration false none n (some v)) = true := by
                    simp [needsGeneratedShim, hv, hn, hcls, hex]
                  rw [h'] at h
                  exact absurd h (by decide)
              · simp [updateStmt, hv, hn, hcls]
  | importExpression a => rfl
  | exportNamedDeclaration a => rfl
  | exportAllDeclaration a => rfl
  | tsExternalModuleReference a => rfl
  | requireCall a => rfl
  | requireMainRequireCall a => rfl
  | constDecl a b => rfl
  | otherNode a => rfl

/-- C5 amended: two runs of the rewrite agree whenever no statement calls
for a generated-identifier shim (every named import from an external
dynamic-format dependency carries a default local name), for any two
random draws; byte difference can only come from the generated shim
identifier. -/
theorem claim_C5_amended (classify : String → String) (builtins : List String)
    (uuids1 uuids2 : Nat → String) (body : List Est)
    (h : ∀ s ∈ body, needsGeneratedShim classify builtins s = false) :
    updateImports classify builtins uuids1 body = updateImports classify builtins uuids2 body := by
  unfold updateImports
  have hgen : ∀ (b : List Est), (∀ s ∈ b, needsGeneratedShim classify builtins s = false) →
      ∀ i j, updateBody classify builtins uuids1 b i = updateBody classify builtins uuids2 b j := by
    intro b
    induction b with
    | nil => intro _ i j; rfl
    | cons s rest ih =>
      intro hb i j
      simp only [updateBody]
      rw [updateStmt_uuid_irrel _ _ _ (uuids2 j) _ (hb s (List.mem_cons_self _ _))]
      rw [ih (fun x hx => hb x (List.mem_cons_of_mem _ hx)) (i + 1) (j + 1)]
  exact hgen body h 0 0

/-- C5 amended witness: the default-carrying import rewrites identically
under two different draws. -/
theorem claim_C5_amended_witness :
    updateImports (fun _ => ".cjs") [] (fun _ => "aaaaaaaaaaaa") bodyC5w =
      updateImports (fun _ => ".cjs") [] (fun _ => "bbbbbbbbbbbb") bodyC5w :=
  claim_C5_amended _ _ _ _ bodyC5w (by decide)

/-- C8: a non-type-only static import of named bindings from an external
dependency that classifies as dynamic-format is replaced by a default-style
binding of the supplied default local name, or of the generated identifier
otherwise, followed immediately by a const destructuring declaration of the
named bindings from that identifier; and running the rewrite again over the
two resulting statements leaves them unchanged, so no second shim is ever
inserted. -/
theorem claim_C8_interop_shim (classify : String → String) (builtins : List String)
    (u1 u2 : String) (dflt : Option String) (named : List (String × String)) (src : String)
    (hsrc : src ≠ "") (hnamed : named ≠ [])
    (hext : (headIs '.' (ensureMJS src) || headIs '/' (ensureMJS src) ||
        isNodeBuiltin builtins (ensureMJS src)) = false)
    (hcjs : classify (ensureMJS src) = ".cjs") :
    updateStmt classify builtins u1 (.importDeclaration false dflt named (some src)) =
      [.importDeclaration false (some (dflt.getD ("xnr_" ++ u1))) [] (some (ensureMJS src)),
       .constDecl named (dflt.getD ("xnr_" ++ u1))] ∧
    updateImports classify builtins (fun _ => u2)
        (updateStmt classify builtins u1 (.importDeclaration false dflt named (some src))) =
      updateStmt classify builtins u1 (.importDeclaration false dflt named (some src)) := by
  have hab : (headIs '.' (ensureMJS src) || headIs '/' (ensureMJS src)) = false :=
    (Bool.or_eq_false_iff.mp hext).1
  have hne : ensureMJS src ≠ "" := ensureMJS_ne_empty src hsrc
  have hm : ensureMJS (ensureMJS src) = ensureMJS src := ensureMJS_external _ hab
  have hfirst : updateStmt classify builtins u1
      (.importDeclaration false dflt named (some src)) =
      [.importDeclaration false (some (dflt.getD ("xnr_" ++ u1))) [] (some (ensureMJS src)),
       .constDecl named (dflt.getD ("xnr_" ++ u1))] := by
    simp [updateStmt, hsrc, hnamed, hext, hcjs]
  refine ⟨hfirst, ?_⟩
  rw [hfirst]
  have himp : updateStmt classify builtins u2
      (.importDeclaration false (some (dflt.getD ("xnr_" ++ u1))) [] (some (ensureMJS src))) =
      [.importDeclaration false (some (dflt.getD ("xnr_" ++ u1))) [] (some (ensureMJS src))] := by
    simp [updateStmt, hne, hm]
  simp only [updateImports, updateBody]
  rw [himp]
  rfl

/-- C8 witness: the shim machinery at a concrete import of two named
bindings from an external dynamic-format dependency with no default
local. -/
theorem claim_C8_interop_shim_witness :
    updateStmt (fun _ => ".cjs") [] "aaaaaaaaaaaa"
        (.importDeclaration false none [("a", "a"), ("b", "b")] (some "dep")) =
      [.importDeclaration false (some ((none : Option String).getD ("xnr_" ++ "aaaaaaaaaaaa")))
        [] (some (ensureMJS "dep")),
       .constDecl [("a", "a"), ("b", "b")] ((none : Option String).getD ("xnr_" ++ "aaaaaaaaaaaa"))] ∧
    updateImports (fun _ => ".cjs") [] (fun _ => "cccccccccccc")
        (updateStmt (fun _ => ".cjs") [] "aaaaaaaaaaaa"
          (.importDeclaration false none [("a", "a"), ("b", "b")] (some "dep"))) =
      updateStmt (fun _ => ".cjs") [] "aaaaaaaaaaaa"
        (.importDeclaration false none [("a", "a"), ("b", "b")] (some "dep")) :=
  claim_C8_interop_shim (fun _ => ".cjs") [] "aaaaaaaaaaaa" "cccccccccccc" none
    [("a", "a"), ("b", "b")] "dep" (by decide) (by decide) (by decide) (by decide)

theorem strMk_data (s : String) : String.mk s.data = s := rfl

theorem normStep_seg (acc : Path) (x : String) (h : Seg x) : normStep acc x = acc ++ [x] := by
  obtain ⟨h1, h2, h3⟩ := h
  unfold normStep
  rw [if_neg (not_or.mpr ⟨h1, h2⟩), if_neg h3]

theorem normStep_dotdot (acc : Path) : normStep acc ".." = acc.dropLast := by
  simp [normStep]

theorem normStep_dot (acc : Path) : normStep acc "." = acc := by
  simp [normStep]

theorem foldl_norm_clean (segs : List String) (h : CleanP segs) :
    ∀ acc, segs.foldl normStep acc = acc ++ segs := by
  induction segs with
  | nil => intro acc; simp
  | cons x xs ih =>
    intro acc
    simp only [List.foldl_cons]
    rw [normStep_seg _ _ (h x (List.mem_cons_self _ _)),
        ih (fun y hy => h y (List.mem_cons_of_mem _ hy))]
    simp

theorem normalize_clean (p : Path) (h : CleanP p) : normalize p = p := by
  unfold normalize
  rw [foldl_norm_clean p h []]
  rfl

theorem CleanP_append (a b : Path) (ha : CleanP a) (hb : CleanP b) : CleanP (a ++ b) := by
  intro x hx
  rcases List.mem_append.mp hx with h | h
  exacts [ha x h, hb x h]

theorem CleanP_single (x : String) (h : Seg x) : CleanP [x] :=
  fun _ hy => (List.mem_singleton.mp hy) ▸ h

theorem normalize_dotdot_dot (base : Path) (y : String) (hb : CleanP base) (hy : Seg y) :
    normalize (base ++ [".."] ++ [".", y]) = base.dropLast ++ [y] := by
  unfold normalize
  rw [List.foldl_append, List.foldl_append, foldl_norm_clean base hb, List.nil_append]
  simp only [List.foldl_cons, List.foldl_nil, normStep_dotdot, normStep_dot]
  exact normStep_seg _ _ hy

theorem extnameP_concat (q : Path) (x : String) : extnameP (q ++ [x]) = extnameP [x] := by
  unfold extnameP
  rw [List.getLastD_concat]
  rfl

theorem swapExtLast_concat (q : Path) (x fmt : String) :
    swapExtLast (q ++ [x]) fmt = q ++ [swapComp x fmt] := by
  unfold swapExtLast swapComp
  rw [extnameP_concat]
  by_cases h : extnameP [x] ≠ fmt
  · rw [if_pos h, if_pos h, List.dropLast_concat, List.getLastD_concat]
  · rw [if_neg h, if_neg h]

theorem swapComp_mjs (b e : String) (hbe : extnameP [b ++ e] = e) :
    swapComp (b ++ e) ".mjs" = b ++ ".mjs" := by
  unfold swapComp
  rw [hbe]
  by_cases h : e = ".mjs"
  · rw [if_neg (by simp [h]), h]
  · rw [if_pos h]
    have hlen : (b ++ e).data.length - e.data.length = b.data.length := by
      rw [strAppend_data, List.length_append]
      omega
    rw [hlen, strAppend_data, List.take_left, strMk_data]

/-- C6 amended: the plan maps each discovered file not to outputDirectory
joined once with its root-relative extension-swapped path, but to
outputDirectory joined with a path that itself already starts with
outputDirectory, so the output directory occurs twice in every emitted
location; every planned output path is still a descendant of the output
directory. -/
theorem claim_C6_amended (od cr f : Path) (fmt : String)
    (hod : CleanP od)
    (hcl : CleanP (swapExtLast (od ++ f.drop cr.length) fmt)) :
    outputFilePathFor od cr f fmt = od ++ swapExtLast (od ++ f.drop cr.length) fmt ∧
    od <+: outputFilePathFor od cr f fmt := by
  have heq : outputFilePathFor od cr f fmt = od ++ swapExtLast (od ++ f.drop cr.length) fmt := by
    unfold outputFilePathFor
    exact normalize_clean _ (CleanP_append _ _ hod hcl)
  exact ⟨heq, heq ▸ List.prefix_append od _⟩

/-- C6 amended witness: the doubled output location of a concrete file. -/
theorem claim_C6_amended_witness :
    outputFilePathFor ["out"] ["src"] ["src", "a.ts"] ".mjs" =
      ["out"] ++ swapExtLast (["out"] ++ (["src", "a.ts"] : Path).drop
        (["src"] : Path).length) ".mjs" ∧
    (["out"] : Path) <+: outputFilePathFor ["out"] ["src"] ["src", "a.ts"] ".mjs" := by
  exact claim_C6_amended ["out"] ["src"] ["src", "a.ts"] ".mjs" (by decide) (by decide)

theorem drop_append_le {A : Type} (l1 l2 : List A) (n : Nat) (h : n ≤ l1.length) :
    (l1 ++ l2).drop n = l1.drop n ++ l2 :=
  List.drop_append_of_le_length h

/-- C1 amended: rewriting appends the static extension to an internal
specifier whose extension differs, while emission replaces the target's
extension with its chosen format; the two agree exactly in the benign
case of an extensionless single-segment specifier resolved to a same-stem
sibling (the specifier stem plus some extension) in the same directory,
with the target emitted in the static format: there the rewritten
specifier, resolved from the emitted importer, names exactly the emitted
target. Extension-bearing specifiers, index resolutions and dynamic-format
targets fall outside this case and the names diverge. -/
theorem claim_C1_amended (od dd cr : Path) (fn b e s fmtI : String)
    (hcr : cr.length ≤ dd.length)
    (hod : CleanP od) (hdd : CleanP (dd.drop cr.length))
    (hfn : Seg (swapComp fn fmtI)) (hbm : Seg (b ++ ".mjs"))
    (hdot : headIs '.' s = true) (hnoext : extnameStr s = "")
    (hsplit : splitSlash (s ++ ".mjs") = [".", b ++ ".mjs"])
    (hbe : extnameP [b ++ e] = e) :
    resolveDep (outputFilePathFor od cr (dd ++ [fn]) fmtI) (ensureMJS s) =
      outputFilePathFor od cr (dd ++ [b ++ e]) ".mjs" := by
  have hbase : CleanP (od ++ (od ++ dd.drop cr.length)) :=
    CleanP_append _ _ hod (CleanP_append _ _ hod hdd)
  have hI : outputFilePathFor od cr (dd ++ [fn]) fmtI =
      (od ++ (od ++ dd.drop cr.length)) ++ [swapComp fn fmtI] := by
    simp only [outputFilePathFor]
    rw [drop_append_le _ _ _ hcr, ← List.append_assoc, swapExtLast_concat]
    rw [show od ++ ((od ++ dd.drop cr.length) ++ [swapComp fn fmtI]) =
        (od ++ (od ++ dd.drop cr.length)) ++ [swapComp fn fmtI] by simp]
    exact normalize_clean _ (CleanP_append _ _ hbase (CleanP_single _ hfn))
  have hT : outputFilePathFor od cr (dd ++ [b ++ e]) ".mjs" =
      (od ++ (od ++ dd.drop cr.length)) ++ [b ++ ".mjs"] := by
    simp only [outputFilePathFor]
    rw [drop_append_le _ _ _ hcr, ← List.append_assoc, swapExtLast_concat, swapComp_mjs _ _ hbe]
    rw [show od ++ ((od ++ dd.drop cr.length) ++ [b ++ ".mjs"]) =
        (od ++ (od ++ dd.drop cr.length)) ++ [b ++ ".mjs"] by simp]
    exact normalize_clean _ (CleanP_append _ _ hbase (CleanP_single _ hbm))
  have hens : ensureMJS s = s ++ ".mjs" := by
    unfold ensureMJS isRelOrAbs
    rw [hdot, hnoext]
    simp
  have hslash : headIs '/' (s ++ ".mjs") = false := by
    unfold headIs at hdot ⊢
    rw [strAppend_data]
    cases hs : s.data with
    | nil => simp [hs] at hdot
    | cons c rest =>
      rw [hs] at hdot
      simp only [decide_eq_true_eq] at hdot
      subst hdot
      simp
  rw [hens, hI, hT]
  unfold resolveDep
  rw [hslash, hsplit]
  simp only [Bool.false_eq_true, if_false]
  rw [show ((od ++ (od ++ dd.drop cr.length)) ++ [swapComp fn fmtI]) ++ [".."] ++
      [".", b ++ ".mjs"] = (((od ++ (od ++ dd.drop cr.length)) ++ [swapComp fn fmtI]) ++
      [".."]) ++ [".", b ++ ".mjs"] by simp]
  rw [normalize_dotdot_dot _ _ (CleanP_append _ _ hbase (CleanP_single _ hfn)) hbm]
  rw [List.dropLast_concat]

/-- C1 amended witness: the benign case at a concrete extensionless
specifier "./a" resolved to a same-stem .ts sibling emitted as static
format. -/
theorem claim_C1_amended_witness :
    resolveDep (outputFilePathFor ["out"] ["src"] (["src"] ++ ["e.ts"]) ".mjs")
        (ensureMJS "./a") =
      outputFilePathFor ["out"] ["src"] (["src"] ++ ["a" ++ ".ts"]) ".mjs" := by
  exact claim_C1_amended ["out"] ["src"] ["src"] "e.ts" "a" ".ts" "./a" ".mjs"
    (by decide) (by decide) (by decide) (by decide) (by decide) (by decide) (by decide)
    (by decide) (by decide)

theorem buildLoop_raw_nodup (fs : FileSys) (builtins : List String) :
    ∀ (fuel : Nat) (stack : List Frame) (explored : List Path) (acc files : List SourceFileRec),
    (acc.map (fun f => f.rawInputFile)).Nodup →
    (∀ f ∈ acc, f.rawInputFile ∈ explored) →
    buildLoop fs builtins fuel stack explored acc = some (.ok files) →
    (files.map (fun f => f.rawInputFile)).Nodup := by
  intro fuel
  induction fuel with
  | zero =>
    intro stack explored acc files _ _ hrun
    simp [buildLoop] at hrun
  | succ n ih =>
    intro stack explored acc files hnd hmem hrun
    cases stack with
    | nil =>
      simp only [buildLoop, Option.some.injEq, Except.ok.injEq] at hrun
      rw [← hrun, List.map_reverse]
      exact List.nodup_reverse.mpr hnd
    | cons fr rest =>
      simp only [buildLoop] at hrun
      by_cases hexp : explored.contains fr.filePath
      · rw [if_pos hexp] at hrun
        exact ih rest explored acc files hnd hmem hrun
      · rw [if_neg hexp] at hrun
        cases hfind : findActualFilePath fs fr.filePath "" with
        | error e =>
          rw [hfind] at hrun
          simp at hrun
        | ok actual =>
          rw [hfind] at hrun
          dsimp only at hrun
          cases hast : lookupAst fs actual with
          | none =>
            rw [hast] at hrun
            simp at hrun
          | some ast =>
            rw [hast] at hrun
            dsimp only at hrun
            refine ih _ _ _ files ?_ ?_ hrun
            · simp only [List.map_cons]
              refine List.nodup_cons.mpr ⟨?_, hnd⟩
              intro hin
              rcases List.mem_map.mp hin with ⟨g, hg, hgeq⟩
              have hge := hmem g hg
              rw [hgeq] at hge
              exact hexp (List.elem_iff.mpr hge)
            · intro g hg
              rcases List.mem_cons.mp hg with rfl | hg'
              · exact List.mem_cons_self _ _
              · exact List.mem_cons_of_mem _ (hmem g hg')

/-- C4 amended: deduplication in the traversal is by raw, pre-resolution
path, not by resolved path: the raw paths of the graph the build produces
are pairwise distinct, while one resolved path can appear several times
when distinct raw specifiers resolve to the same file (as the
counterexample shows). -/
theorem claim_C4_amended (fs : FileSys) (builtins : List String) (entryAbs : Path)
    (fuel : Nat) (files : List SourceFileRec)
    (h : buildGraph fs builtins entryAbs fuel = some (.ok files)) :
    (files.map (fun f => f.rawInputFile)).Nodup :=
  buildLoop_raw_nodup fs builtins fuel _ _ _ files (by simp) (by simp) h

/-- C4 amended witness: the graph of the duplicate-resolution fixture has
pairwise distinct raw paths even though a resolved path repeats. -/
theorem claim_C4_amended_witness :
    (([⟨["d", "e.ts"], ["d", "e.ts"], ".mjs"⟩, ⟨["d", "a.ts"], ["d", "a.ts"], ".mjs"⟩,
       ⟨["d", "a"], ["d", "a.ts"], ".mjs"⟩] : List SourceFileRec).map
      (fun f => f.rawInputFile)).Nodup :=
  claim_C4_amended fsC4 [] ["d", "e.ts"] 10 _ (by decide)

theorem le_foldr_max (l : List Nat) (x : Nat) (h : x ∈ l) : x ≤ l.foldr max 0 := by
  induction l with
  | nil => cases h
  | cons a as ih =>
    rcases List.mem_cons.mp h with rfl | h'
    · exact le_max_left _ _
    · exact le_trans (ih h') (le_max_right _ _)

theorem depTargets_length_lt (fs : FileSys) (builtins : List String) (a : Path) (ast : Est)
    (h : (a, ast) ∈ fs) : (depTargets builtins a ast).length < framesBound fs builtins := by
  unfold framesBound
  have hmem : (depTargets builtins a ast).length ∈
      fs.map (fun f => (depTargets builtins f.1 f.2).length) :=
    List.mem_map.mpr ⟨(a, ast), h, rfl⟩
  have := le_foldr_max _ _ hmem
  omega

theorem lookupAst_mem (fs : FileSys) (p : Path) (ast : Est) (h : lookupAst fs p = some ast) :
    (p, ast) ∈ fs := by
  unfold lookupAst at h
  cases hf : fs.find? (fun f => f.1 == p) with
  | none => rw [hf] at h; simp at h
  | some pr =>
    rw [hf] at h
    simp at h
    have hmem := List.mem_of_find?_eq_some hf
    have hp : pr.1 = p := by
      have := List.find?_some hf
      exact eq_of_beq this
    have hpr : pr = (p, ast) := by
      cases pr
      simp only at hp h
      rw [hp, h]
    rw [← hpr]
    exact hmem

theorem filter_notmem_cons (U : Finset Path) (p : Path) (E : List Path)
    (hpU : p ∈ U) (hpE : p ∉ E) :
    (U.filter (fun x => x ∉ (p :: E))).card + 1 = (U.filter (fun x => x ∉ E)).card := by
  have h1 : U.filter (fun x => x ∉ (p :: E)) = (U.filter (fun x => x ∉ E)).erase p := by
    ext x
    simp only [Finset.mem_filter, Finset.mem_erase, List.mem_cons, not_or]
    tauto
  rw [h1]
  exact Finset.card_erase_add_one (Finset.mem_filter.mpr ⟨hpU, hpE⟩)

theorem pushed_mem_rawPathBound (fs : FileSys) (builtins : List String) (entryAbs : Path)
    (actual : Path) (ast : Est) (hlk : lookupAst fs actual = some ast)
    (t : Path × Mechanism) (ht : t ∈ depTargets builtins actual ast) :
    t.1 ∈ rawPathBound fs builtins entryAbs := by
  unfold rawPathBound
  apply Finset.mem_insert_of_mem
  rw [List.mem_toFinset]
  exact List.mem_flatMap.mpr
    ⟨(actual, ast), lookupAst_mem _ _ _ hlk, List.mem_map.mpr ⟨t, ht, rfl⟩⟩

theorem buildLoop_total (fs : FileSys) (builtins : List String) (entryAbs : Path) :
    ∀ (n : Nat) (stack : List Frame) (explored : List Path) (acc : List SourceFileRec),
    (∀ fr ∈ stack, fr.filePath ∈ rawPathBound fs builtins entryAbs) →
    loopMeasure fs builtins entryAbs stack explored ≤ n →
    (buildLoop fs builtins (n + 1) stack explored acc).isSome = true := by
  intro n
  induction n with
  | zero =>
    intro stack explored acc hinv hm
    cases stack with
    | nil => simp [buildLoop]
    | cons fr rest =>
      exfalso
      unfold loopMeasure at hm
      simp only [List.length_cons] at hm
      omega
  | succ n ih =>
    intro stack explored acc hinv hm
    cases stack with
    | nil => simp [buildLoop]
    | cons fr rest =>
      simp only [buildLoop]
      by_cases hexp : explored.contains fr.filePath
      · rw [if_pos hexp]
        apply ih rest explored acc (fun g hg => hinv g (List.mem_cons_of_mem _ hg))
        unfold loopMeasure at hm ⊢
        simp only [List.length_cons] at hm
        omega
      · rw [if_neg hexp]
        cases hfind : findActualFilePath fs fr.filePath "" with
        | error e => simp
        | ok actual =>
          dsimp only
          cases hast : lookupAst fs actual with
          | none => simp
          | some ast =>
            dsimp only
            apply ih
            · intro g hg
              rcases List.mem_append.mp hg with hg1 | hg2
              · rw [List.mem_reverse] at hg1
                rcases List.mem_map.mp hg1 with ⟨t, ht, rfl⟩
                exact pushed_mem_rawPathBound fs builtins entryAbs actual ast hast t ht
              · exact hinv g (List.mem_cons_of_mem _ hg2)
            · have hfr : fr.filePath ∈ rawPathBound fs builtins entryAbs :=
                hinv fr (List.mem_cons_self _ _)
              have hnotmem : fr.filePath ∉ explored := fun hc => hexp (List.elem_iff.mpr hc)
              have hcard := filter_notmem_cons (rawPathBound fs builtins entryAbs)
                fr.filePath explored hfr hnotmem
              have hlt : (depTargets builtins actual ast).length < framesBound fs builtins :=
                depTargets_length_lt fs builtins actual ast (lookupAst_mem _ _ _ hast)
              unfold loopMeasure at hm ⊢
              rw [← hcard] at hm
              rw [Nat.succ_mul] at hm
              simp only [List.length_append, List.length_reverse, List.length_map,
                List.length_cons] at hm ⊢
              omega

/-- C10: the traversal terminates on every finite filesystem model, cycles
included: with fuel one past the loop measure the fuel never runs out, so
the explored set makes the work stack empty out after finitely many
steps. -/
theorem claim_C10_termination (fs : FileSys) (builtins : List String) (entryAbs : Path) :
    ∃ fuel, (buildGraph fs builtins entryAbs fuel).isSome = true := by
  refine ⟨loopMeasure fs builtins entryAbs [⟨entryAbs, extnameP entryAbs, .entry⟩] [] + 1, ?_⟩
  unfold buildGraph
  apply buildLoop_total
  · intro g hg
    rw [List.mem_singleton.mp hg]
    exact Finset.mem_insert_self _ _
  · exact le_refl _

end JustRun
